import Mathlib

/-!
# Verification of the `util` concurrency primitives

A shallow embedding of the four core primitives of the `util` repository
(`PubSub` fan-out broadcaster, `Debouncer` / `PubSubDebouncer` cached values,
`RandomQueue` random-removal collection, `WorkerPool`), together with proofs
of the behavioural claims made about them.

Modelling conventions:
* Go `time.Time` is modelled as `Int` (nanoseconds since the epoch); the Go
  zero `time.Time` is `0`, and `time.Now().After(t)` is strict `now > t`.
* A Go channel is modelled as a `Chan`: an identity (`id`), the list of
  messages sent into it so far (`msgs`, oldest first), and a `closed` flag.
  Buffer capacity only affects blocking, which the verified claims do not
  mention, so it is not part of the state.
* Fallible Go functions return an `Option ε` error component next to their
  value; the externally supplied fetcher of a debouncer is modelled by
  passing its outcome (`fetched`, `ferr`) to `GetValue` as arguments.
* Locks are dropped: every operation acts atomically on the state, which is
  exactly the granularity the Go mutexes enforce.
-/

/-- A Go channel as seen by the `PubSub` broadcaster: its identity, the
messages delivered into it so far (oldest first) and whether it has been
closed. -/
structure Chan (T : Type) where
  id : Nat
  msgs : List T
  closed : Bool
deriving DecidableEq, Repr

/-- State of `PubSub[T]` (src/email.go): `clients` is the Go `clients`
slice, holding the ids of the currently registered channels in slice order.
`chans` is the heap of every channel ever created (registered or not), so
that properties of a channel after its removal remain expressible.
`nextId` generates fresh channel identities. -/
structure PubSub (T : Type) where
  chans : List (Chan T)
  clients : List Nat
  nextId : Nat
deriving DecidableEq, Repr

/-- `NewPubSub`: the empty broadcaster. -/
def NewPubSub (T : Type) : PubSub T := ⟨[], [], 0⟩

/-- `PubSub.Register`: `make(chan T, buffSize)` followed by appending the
channel to `clients`. Returns the new state and the handle (the fresh id).
The buffer size only affects blocking behaviour and is not part of the
state. -/
def PubSub.Register (s : PubSub T) : PubSub T × Nat :=
  (⟨s.chans ++ [⟨s.nextId, [], false⟩], s.clients ++ [s.nextId], s.nextId + 1⟩, s.nextId)

/-- One send `v <- msg`: append `msg` to the channel with id `i`. -/
def PubSub.sendTo (chans : List (Chan T)) (i : Nat) (msg : T) : List (Chan T) :=
  chans.map fun c => if c.id = i then { c with msgs := c.msgs ++ [msg] } else c

/-- The send loop of `PubSub.Broadcast`: send `msg` to each handle of the
snapshot `ids` in turn. -/
def PubSub.sendAll (ids : List Nat) (chans : List (Chan T)) (msg : T) : List (Chan T) :=
  ids.foldl (fun acc i => PubSub.sendTo acc i msg) chans

/-- `PubSub.Broadcast` (src/email.go): snapshot the client list under the
read lock, then send `msg` to every snapshotted channel in turn. -/
def PubSub.Broadcast (s : PubSub T) (msg : T) : PubSub T :=
  { s with chans := PubSub.sendAll s.clients s.chans msg }

/-- `PubSub.Unregister` (src/email.go): find the first occurrence of the
handle in `clients`, overwrite it with the last entry and shorten the slice
by one (swap-with-last).  The channel itself is NOT touched.  If the handle
is not found, nothing happens. -/
def PubSub.Unregister (s : PubSub T) (c : Nat) : PubSub T :=
  match s.clients.findIdx? (· == c) with
  | none => s
  | some i =>
      { s with clients := (s.clients.set i (s.clients.getLastD 0)).dropLast }

/-- Mark the channel with id `i` closed (`close(v)`). -/
def PubSub.closeChan (chans : List (Chan T)) (i : Nat) : List (Chan T) :=
  chans.map fun c => if c.id = i then { c with closed := true } else c

/-- `PubSub.Unregister` in the older variant (src/unnamed/part_005): same
swap-with-last removal, but the channel is additionally CLOSED before being
removed from the list. -/
def PubSub.UnregisterV0 (s : PubSub T) (c : Nat) : PubSub T :=
  match s.clients.findIdx? (· == c) with
  | none => s
  | some i =>
      { s with
        chans := PubSub.closeChan s.chans c,
        clients := (s.clients.set i (s.clients.getLastD 0)).dropLast }

/-- `PubSub.Size` (src/email.go): `len(s.clients)`. -/
def PubSub.Size (s : PubSub T) : Nat := s.clients.length

/-- `PubSub.IsActive` (src/email.go): `len(s.clients) > 0`. -/
def PubSub.IsActive (s : PubSub T) : Bool := decide (0 < s.clients.length)

/-- The closed flag of the channel with id `i`, if such a channel exists. -/
def PubSub.chanClosed (s : PubSub T) (i : Nat) : Option Bool :=
  (s.chans.find? (fun c => c.id == i)).map Chan.closed

/-- What one broadcast does to one channel of the heap when the client list
has no duplicates: registered channels get exactly one copy of the message
appended, all other channels are untouched. -/
def PubSub.deliverOnce (clients : List Nat) (msg : T) (c : Chan T) : Chan T :=
  if c.id ∈ clients then { c with msgs := c.msgs ++ [msg] } else c

section PubSubLemmas

variable {T : Type}

/-- Sending to the whole snapshot delivers, to each channel in the heap, one
copy of the message per occurrence of its id in the snapshot. -/
theorem PubSub.sendAll_eq_map (ids : List Nat) (chans : List (Chan T)) (msg : T) :
    PubSub.sendAll ids chans msg
      = chans.map (fun c => { c with msgs := c.msgs ++ List.replicate (ids.count c.id) msg }) := by
  induction ids generalizing chans with
  | nil =>
      simp [PubSub.sendAll]
  | cons i ids ih =>
      show PubSub.sendAll ids (PubSub.sendTo chans i msg) msg = _
      rw [ih, PubSub.sendTo, List.map_map]
      apply List.map_congr_left
      intro c _
      simp only [Function.comp]
      by_cases h : c.id = i
      · simp [h, List.count_cons, List.replicate_succ, List.append_assoc]
      · simp [h, List.count_cons, Ne.symm h]

/-- Swap-with-last removal (`xs[i] = xs[len-1]; xs = xs[:len-1]`) yields a
permutation of ordinary index removal. -/
theorem List.swapRemove_perm (xs : List α) (i : Nat) (hi : i < xs.length) (hne : xs ≠ []) :
    ((xs.set i (xs.getLast hne)).dropLast).Perm (xs.eraseIdx i) := by
  by_cases hlast : i + 1 = xs.length
  · have hdrop : xs.drop (i + 1) = [] := by
      rw [hlast]; exact List.drop_length xs
    rw [List.set_eq_take_cons_drop _ hi, List.eraseIdx_eq_take_drop_succ, hdrop]
    simp
  · have hdrop : xs.drop (i + 1) ≠ [] := by
      rw [ne_eq, List.drop_eq_nil_iff]
      omega
    rw [List.set_eq_take_cons_drop _ hi, List.eraseIdx_eq_take_drop_succ,
      List.dropLast_append_cons, List.dropLast_cons_of_ne_nil hdrop]
    conv_rhs => rw [← List.dropLast_concat_getLast hdrop, List.getLast_drop hdrop]
    exact (xs.take i).perm_append_left_iff.mpr
      (List.perm_append_singleton _ _).symm

/-- For a nonempty list, `getLastD` is `getLast`. -/
theorem List.getLastD_eq_getLast (xs : List α) (hne : xs ≠ []) (d : α) :
    xs.getLastD d = xs.getLast hne := by
  rw [List.getLastD_eq_getLast?, List.getLast?_eq_getLast xs hne]
  rfl

/-- `Unregister` never touches the channel heap: no channel is closed,
no delivered message is lost.  (Both branches of the find loop leave
`chans` alone.) -/
theorem PubSub.Unregister_chans (s : PubSub T) (c : Nat) :
    (s.Unregister c).chans = s.chans := by
  unfold PubSub.Unregister
  cases s.clients.findIdx? (· == c) <;> rfl

/-- `Unregister` does not generate channel ids. -/
theorem PubSub.Unregister_nextId (s : PubSub T) (c : Nat) :
    (s.Unregister c).nextId = s.nextId := by
  unfold PubSub.Unregister
  cases s.clients.findIdx? (· == c) <;> rfl

/-- Unregistering a handle that is not registered is a no-op. -/
theorem PubSub.Unregister_of_not_mem (s : PubSub T) (c : Nat) (h : c ∉ s.clients) :
    s.Unregister c = s := by
  have hnone : s.clients.findIdx? (· == c) = none := by
    rw [List.findIdx?_eq_none_iff]
    intro x hx
    simp only [beq_eq_false_iff_ne, ne_eq]
    exact fun hxc => h (hxc ▸ hx)
  unfold PubSub.Unregister
  rw [hnone]

/-- Unregistering a registered handle removes its first occurrence from the
client list, up to the order shuffling of swap-with-last. -/
theorem PubSub.Unregister_clients_of_mem (s : PubSub T) (c : Nat) (h : c ∈ s.clients) :
    (s.Unregister c).clients.Perm (s.clients.erase c) := by
  have hex : ∃ x, x ∈ s.clients ∧ (x == c) = true := ⟨c, h, by simp⟩
  have hsome := List.findIdx?_eq_some_of_exists hex
  have hlt : s.clients.findIdx (· == c) < s.clients.length :=
    (List.findIdx?_eq_some_iff_findIdx_eq.mp hsome).1
  have hne : s.clients ≠ [] :=
    List.ne_nil_of_length_pos (Nat.lt_of_le_of_lt (Nat.zero_le _) hlt)
  have hclients : (s.Unregister c).clients
      = ((s.clients.set (s.clients.findIdx (· == c)) (s.clients.getLastD 0)).dropLast) := by
    unfold PubSub.Unregister
    rw [hsome]
  rw [hclients, List.getLastD_eq_getLast _ hne]
  refine (List.swapRemove_perm s.clients _ hlt hne).trans ?_
  have : s.clients.eraseIdx (s.clients.indexOf c) = s.clients.erase c :=
    List.eraseIdx_indexOf_eq_erase c s.clients
  exact this ▸ List.Perm.refl _

/-- `Broadcast` with a duplicate-free client list delivers the message
exactly once to every registered channel and leaves every other channel
untouched. -/
theorem PubSub.Broadcast_chans_of_nodup (s : PubSub T) (msg : T) (h : s.clients.Nodup) :
    (s.Broadcast msg).chans = s.chans.map (PubSub.deliverOnce s.clients msg) := by
  show PubSub.sendAll s.clients s.chans msg = _
  rw [PubSub.sendAll_eq_map]
  apply List.map_congr_left
  intro c _
  unfold PubSub.deliverOnce
  by_cases hmem : c.id ∈ s.clients
  · rw [if_pos hmem, List.count_eq_one_of_mem h hmem]
    rfl
  · rw [if_neg hmem, List.count_eq_zero.mpr hmem]
    simp

/-- `Broadcast` touches neither the client list nor the id supply. -/
theorem PubSub.Broadcast_clients (s : PubSub T) (msg : T) :
    (s.Broadcast msg).clients = s.clients ∧ (s.Broadcast msg).nextId = s.nextId :=
  ⟨rfl, rfl⟩

/-- Whole-state form of `Broadcast_chans_of_nodup`. -/
theorem PubSub.Broadcast_eq_of_nodup (s : PubSub T) (msg : T) (h : s.clients.Nodup) :
    s.Broadcast msg = { s with chans := s.chans.map (PubSub.deliverOnce s.clients msg) } := by
  have h2 := PubSub.Broadcast_chans_of_nodup s msg h
  cases s with
  | mk chans clients nextId =>
      simpa [PubSub.mk.injEq, PubSub.Broadcast] using h2

end PubSubLemmas

/-! ## The debounced caches (src/valueTracker.go, `debounce.go` section) -/

/-- State of the plain `Debouncer[T]`: cached value, refresh deadline
(`timeOut`, the Go zero `time.Time` is `0`), and the fixed `delay`.  The
externally supplied fetcher is not part of the state; its outcome on a
given call is passed to `GetValue` as arguments. -/
structure Debouncer (T : Type) where
  lastValue : T
  timeOut : Int
  delay : Int
deriving DecidableEq, Repr

/-- `NewDebouncer`: only the delay is set; the cached value starts at the Go
zero value of `T` (made explicit here) and the deadline at the zero time. -/
def NewDebouncer (delay : Int) (zeroValue : T) : Debouncer T :=
  { lastValue := zeroValue, timeOut := 0, delay := delay }

/-- `Debouncer.GetValue`: if `time.Now().After(d.timeOut)` (strict), the
fetcher runs; only on a nil error are the cache and the deadline updated.
The returned error is the literal `nil` of the Go `return d.lastValue, nil`.
Result: (new state, returned value, returned error). -/
def Debouncer.GetValue (d : Debouncer T) (now : Int) (fetched : T) (ferr : Option ε) :
    Debouncer T × T × Option ε :=
  let d' := if now > d.timeOut then
              if ferr.isNone then { d with timeOut := now + d.delay, lastValue := fetched }
              else d
            else d
  (d', d'.lastValue, none)

/-- State of `PubSubDebouncer[T]`: cached value, embedded `PubSub`
broadcaster, minimum delay, refresh deadline. -/
structure PubSubDebouncer (T : Type) where
  lastValue : T
  listeners : PubSub T
  delay : Int
  timeOut : Int
deriving DecidableEq, Repr

/-- `NewPubSubDebouncer` panics when `delay < 100ms` (`100000000` ns);
modelled as `none`. -/
def NewPubSubDebouncer (delay : Int) (zeroValue : T) : Option (PubSubDebouncer T) :=
  if delay < 100000000 then none
  else some { lastValue := zeroValue, listeners := ⟨[], [], 0⟩, delay := delay, timeOut := 0 }

/-- Outcome of one `PubSubDebouncer.GetValue` call: the post state, the two
returned values, and whether the fetcher was invoked during the call. -/
structure GetValueResult (T ε : Type) where
  state : PubSubDebouncer T
  value : T
  err : Option ε
  fetchInvoked : Bool
deriving DecidableEq, Repr

/-- `PubSubDebouncer.GetValue` (src/valueTracker.go:236-249).  Note the Go
body is `d.lastValue, err = d.fetcherFunc()`: when the deadline has passed
the multi-assignment stores the fetcher's returned value into the cache
whether or not the fetcher also returned an error; only the deadline update
is guarded by `err == nil`. -/
def PubSubDebouncer.GetValue (d : PubSubDebouncer T) (now : Int) (fetched : T)
    (ferr : Option ε) : GetValueResult T ε :=
  if now > d.timeOut then
    let d₁ := { d with lastValue := fetched }
    if ferr.isNone then
      { state := { d₁ with timeOut := now + d.delay }, value := fetched,
        err := ferr, fetchInvoked := true }
    else
      { state := d₁, value := fetched, err := ferr, fetchInvoked := true }
  else
    { state := d, value := d.lastValue, err := none, fetchInvoked := false }

/-- The `float64` arm of the `SetValue` type switch:
`math.Abs(last - value) > 0.00000001`. -/
def float64Differs (a b : ℚ) : Bool := decide (|a - b| > 1 / 100000000)

/-- The `float32` arm of the `SetValue` type switch:
`math.Abs(float64(last - value)) > 0.00001`. -/
def float32Differs (a b : ℚ) : Bool := decide (|a - b| > 1 / 100000)

/-- The `default` arm of the `SetValue` type switch: exact inequality on any
comparable type. -/
def defaultDiffers (inst : DecidableEq T) (a b : T) : Bool := ! @decide (a = b) (inst a b)

/-- `PubSubDebouncer.SetValue` (src/valueTracker.go:274-304).  `differs` is
the arm of the runtime type switch that applies to `T` (one of
`float64Differs`, `float32Differs`, `defaultDiffers`).  The deadline is
advanced unconditionally; the cache update and the broadcast happen only
when the comparison reports a change. -/
def PubSubDebouncer.SetValue (d : PubSubDebouncer T) (differs : T → T → Bool)
    (now : Int) (value : T) : PubSubDebouncer T :=
  let doBroadcast := differs d.lastValue value
  let d' := { d with lastValue := if doBroadcast then value else d.lastValue,
                     timeOut := now + d.delay }
  if doBroadcast then { d' with listeners := d'.listeners.Broadcast value } else d'

/-- `PubSubDebouncer.Register` delegates to the embedded broadcaster with
buffer capacity 1 (the fetcher task start is a liveness side effect, not
state). -/
def PubSubDebouncer.Register (d : PubSubDebouncer T) : PubSubDebouncer T × Nat :=
  let (ps, c) := d.listeners.Register
  ({ d with listeners := ps }, c)

/-- `PubSubDebouncer.Unregister` delegates to the embedded broadcaster. -/
def PubSubDebouncer.Unregister (d : PubSubDebouncer T) (c : Nat) : PubSubDebouncer T :=
  { d with listeners := d.listeners.Unregister c }

/-! ## Claim theorems: the debounced caches -/

/-- Example `PubSubDebouncer` state with a nonzero cached value, a passed
deadline, and no subscribers. -/
def psdStale : PubSubDebouncer ℤ :=
  { lastValue := 5, listeners := ⟨[], [], 0⟩, delay := 50, timeOut := 0 }

/-- C9: `Debouncer.GetValue` (the plain, non-broadcasting variant) always
returns a `nil` error; on a fetcher error the previous cached value is
returned unchanged, the timeout is not advanced, and the error is silently
discarded. -/
theorem Debouncer_GetValue_swallows_error (d : Debouncer T) (now : Int)
    (fetched : T) (ferr : Option ε) :
    (d.GetValue now fetched ferr).2.2 = none
    ∧ (ferr.isSome = true →
        (d.GetValue now fetched ferr).1 = d
        ∧ (d.GetValue now fetched ferr).2.1 = d.lastValue) := by
  refine ⟨rfl, fun h => ?_⟩
  have hn : ferr.isNone = false := by
    cases ferr with
    | none => simp at h
    | some e => rfl
  unfold Debouncer.GetValue
  by_cases hnow : now > d.timeOut <;> simp [hnow, hn]

/-- Witness for C9: cached value `7`, expired deadline, failing fetch;
the call returns the old value with no error and changes nothing. -/
theorem Debouncer_GetValue_swallows_error_witness :
    ((some "boom" : Option String).isSome = true)
    ∧ ((NewDebouncer 30 (7 : ℤ)).GetValue 100 9 (some "boom")).1 = NewDebouncer 30 (7 : ℤ)
    ∧ ((NewDebouncer 30 (7 : ℤ)).GetValue 100 9 (some "boom")).2.1 = 7 := by
  have h := Debouncer_GetValue_swallows_error (NewDebouncer 30 (7 : ℤ)) 100 9 (some "boom")
  exact ⟨rfl, (h.2 rfl).1, (h.2 rfl).2⟩

/-- C1 counterexample: the claim says a failing fetch leaves the cached
value untouched and `GetValue` returns the previous (stale) value.  But the
Go multi-assignment `d.lastValue, err = d.fetcherFunc()` overwrites the
cache on error: starting from cached value `5`, a failing fetch that
returns `(0, err)` makes `GetValue` return `0` and leaves `0` in the
cache. -/
theorem PubSubDebouncer_GetValue_error_overwrites_cache_cex :
    psdStale.lastValue = 5
    ∧ (psdStale.GetValue 1 0 (some "boom")).err = some "boom"
    ∧ (psdStale.GetValue 1 0 (some "boom")).value = 0
    ∧ (psdStale.GetValue 1 0 (some "boom")).state.lastValue = 0 :=
  ⟨rfl, rfl, rfl, rfl⟩

/-- C1 (amended): when the deadline has passed and the fetch fails,
`PubSubDebouncer.GetValue` overwrites the cached value with the value the
failing fetcher returned, returns that value together with the error, and
does not advance the refresh deadline. -/
theorem PubSubDebouncer_GetValue_error_behaviour (d : PubSubDebouncer T) (now : Int)
    (fetched : T) (e : ε) (h : now > d.timeOut) :
    d.GetValue now fetched (some e)
      = { state := { d with lastValue := fetched }, value := fetched,
          err := some e, fetchInvoked := true } := by
  unfold PubSubDebouncer.GetValue
  rw [if_pos h]
  rfl

/-- Witness for C1's amended theorem at a concrete state. -/
theorem PubSubDebouncer_GetValue_error_behaviour_witness :
    ((1 : Int) > psdStale.timeOut)
    ∧ psdStale.GetValue 1 0 (some "boom")
        = { state := { psdStale with lastValue := 0 }, value := 0,
            err := some "boom", fetchInvoked := true } :=
  ⟨by decide, PubSubDebouncer_GetValue_error_behaviour psdStale 1 0 "boom" (by decide)⟩

/-- A `PubSubDebouncer` whose refresh deadline is exactly 100. -/
def psdAtDeadline : PubSubDebouncer ℤ :=
  { lastValue := 1, listeners := ⟨[], [], 0⟩, delay := 50, timeOut := 100 }

/-- C3 counterexample: the claim says the fetch function is invoked if and
only if the current time is AT or past the refresh deadline, but the Go
test `time.Now().After(d.timeOut)` is strict: at `now` exactly equal to the
deadline the fetcher is not invoked. -/
theorem PubSubDebouncer_GetValue_deadline_boundary_cex :
    ¬ (((psdAtDeadline.GetValue 100 2 (none : Option String)).fetchInvoked = true)
        ↔ (100 : Int) ≥ psdAtDeadline.timeOut) := by
  decide

/-- C3 (amended): `GetValue` invokes the fetch function iff the current
time is strictly past the refresh deadline; on a successful fetch it stores
the fetched value and advances the deadline to `now + delay`; before (or
exactly at) the deadline it returns the cached value without fetching and
with a `nil` error. -/
theorem PubSubDebouncer_GetValue_debounce (d : PubSubDebouncer T) (now : Int)
    (fetched : T) (ferr : Option ε) :
    (((d.GetValue now fetched ferr).fetchInvoked = true) ↔ now > d.timeOut)
    ∧ (now > d.timeOut → ferr = none →
        d.GetValue now fetched ferr
          = { state := { d with lastValue := fetched, timeOut := now + d.delay },
              value := fetched, err := none, fetchInvoked := true })
    ∧ (¬ now > d.timeOut →
        d.GetValue now fetched ferr
          = { state := d, value := d.lastValue, err := none, fetchInvoked := false }) := by
  by_cases hnow : now > d.timeOut
  · refine ⟨?_, fun _ herr => ?_, fun h => absurd hnow h⟩
    · cases ferr <;> simp [PubSubDebouncer.GetValue, hnow]
    · subst herr
      simp [PubSubDebouncer.GetValue, hnow]
  · refine ⟨?_, fun h => absurd h hnow, fun _ => ?_⟩ <;>
      simp [PubSubDebouncer.GetValue, hnow]

/-- Zero state of the C3 timing scenario: `delay = 50` time units. -/
def psdScenario0 : PubSubDebouncer ℤ :=
  { lastValue := 0, listeners := ⟨[], [], 0⟩, delay := 50, timeOut := 0 }

/-- State after the scenario's first successful fetch at time 1. -/
def psdScenario1 : PubSubDebouncer ℤ :=
  { lastValue := 1, listeners := ⟨[], [], 0⟩, delay := 50, timeOut := 51 }

/-- Witness for C3: the spec's own scenario with `delay = 50` and a fetcher
returning 1,2,3,…: starting from the zero state, the first call (at time 1)
fetches and returns 1; a call at time 21 returns 1 without fetching; a call
at time 61 fetches and returns 2. -/
theorem PubSubDebouncer_GetValue_debounce_witness :
    ((1 : Int) > psdScenario0.timeOut)
    ∧ psdScenario0.GetValue 1 1 (none : Option String)
        = { state := psdScenario1, value := 1, err := none, fetchInvoked := true }
    ∧ psdScenario1.GetValue 21 99 (none : Option String)
        = { state := psdScenario1, value := 1, err := none, fetchInvoked := false }
    ∧ psdScenario1.GetValue 61 2 (none : Option String)
        = { state := { psdScenario1 with lastValue := 2, timeOut := 111 },
            value := 2, err := none, fetchInvoked := true } := by
  refine ⟨by decide, ?_, ?_, ?_⟩
  · exact (PubSubDebouncer_GetValue_debounce psdScenario0 1 1 none).2.1 (by decide) rfl
  · exact (PubSubDebouncer_GetValue_debounce psdScenario1 21 99 none).2.2 (by decide)
  · exact (PubSubDebouncer_GetValue_debounce psdScenario1 61 2 none).2.1 (by decide) rfl

/-- C10: every `SetValue` call advances the refresh deadline to
`now + delay`, even a non-qualifying one (comparison reports no change);
a non-qualifying call changes nothing else and suppresses the synchronous
fetch of any `GetValue` up to (and including) `now + delay`. -/
theorem PubSubDebouncer_SetValue_always_advances (d : PubSubDebouncer T)
    (differs : T → T → Bool) (now : Int) (v : T) :
    ((d.SetValue differs now v).timeOut = now + d.delay)
    ∧ (differs d.lastValue v = false →
        d.SetValue differs now v = { d with timeOut := now + d.delay }
        ∧ ∀ (ε : Type) (now' : Int) (fetched : T) (ferr : Option ε),
            ¬ now' > now + d.delay →
            ((d.SetValue differs now v).GetValue now' fetched ferr).fetchInvoked = false) := by
  constructor
  · unfold PubSubDebouncer.SetValue
    by_cases hd : differs d.lastValue v <;> simp [hd, PubSub.Broadcast]
  · intro hd
    have hset : d.SetValue differs now v = { d with timeOut := now + d.delay } := by
      unfold PubSubDebouncer.SetValue
      simp [hd]
    refine ⟨hset, fun ε now' fetched ferr hnot => ?_⟩
    rw [hset]
    simp [PubSubDebouncer.GetValue, hnot]

/-- Witness for C10: a `SetValue` to the very same value (`defaultDiffers`
reports no change) still pushes the deadline to `now + delay = 57`, and a
`GetValue` at time 57 does not fetch. -/
theorem PubSubDebouncer_SetValue_always_advances_witness :
    (defaultDiffers inferInstance psdStale.lastValue 5 = false)
    ∧ psdStale.SetValue (defaultDiffers inferInstance) 7 5 = { psdStale with timeOut := 57 }
    ∧ ((psdStale.SetValue (defaultDiffers inferInstance) 7 5).GetValue 57 99
          (none : Option String)).fetchInvoked = false := by
  have h := (PubSubDebouncer_SetValue_always_advances psdStale
    (defaultDiffers inferInstance) 7 5).2 (by decide)
  exact ⟨by decide, h.1, h.2 String 57 99 none (by decide)⟩

/-- C2: `SetValue` change detection and broadcast.  A non-qualifying call
(comparison arm reports `false`) leaves the cache and the subscribers
untouched; a qualifying call stores the new value, advances the deadline,
and broadcasts the new value exactly once to every currently registered
subscriber.  The float arms report a change exactly when the delta exceeds
their epsilon (`1e-8` for `float64`, `1e-5` for `float32`); the default arm
reports a change exactly on inequality. -/
theorem PubSubDebouncer_SetValue_epsilon_broadcast (T : Type) (inst : DecidableEq T)
    (differs : T → T → Bool) (d : PubSubDebouncer T) (now : Int) (v : T)
    (hwf : d.listeners.clients.Nodup) :
    (differs d.lastValue v = false →
        d.SetValue differs now v = { d with timeOut := now + d.delay })
    ∧ (differs d.lastValue v = true →
        d.SetValue differs now v
          = { d with
              lastValue := v
              timeOut := now + d.delay
              listeners := { d.listeners with
                chans := d.listeners.chans.map (PubSub.deliverOnce d.listeners.clients v) } })
    ∧ (∀ a b : ℚ, (|a - b| < 1 / 100000000 → float64Differs a b = false)
                ∧ (|a - b| > 1 / 100000000 → float64Differs a b = true))
    ∧ (∀ a b : ℚ, (|a - b| < 1 / 100000 → float32Differs a b = false)
                ∧ (|a - b| > 1 / 100000 → float32Differs a b = true))
    ∧ (∀ a b : T, (a = b → defaultDiffers inst a b = false)
                ∧ (a ≠ b → defaultDiffers inst a b = true)) := by
  refine ⟨fun hd => ?_, fun hd => ?_, fun a b => ⟨fun h => ?_, fun h => ?_⟩,
    fun a b => ⟨fun h => ?_, fun h => ?_⟩, fun a b => ⟨fun h => ?_, fun h => ?_⟩⟩
  · unfold PubSubDebouncer.SetValue
    simp [hd]
  · have hb := PubSub.Broadcast_eq_of_nodup d.listeners v hwf
    unfold PubSubDebouncer.SetValue
    simp only [hd, if_true]
    rw [hb]
  · simp only [float64Differs, decide_eq_false_iff_not, not_lt]
    exact le_of_lt h
  · simp only [float64Differs, decide_eq_true_eq]
    exact h
  · simp only [float32Differs, decide_eq_false_iff_not, not_lt]
    exact le_of_lt h
  · simp only [float32Differs, decide_eq_true_eq]
    exact h
  · subst h
    simp [defaultDiffers]
  · simp [defaultDiffers, h]

/-- A `PubSubDebouncer` over `ℚ` (modelling `float64`) with one registered
subscriber channel. -/
def psdOneSub : PubSubDebouncer ℚ :=
  { lastValue := 0, listeners := ⟨[⟨0, [], false⟩], [0], 1⟩, delay := 50, timeOut := 7 }

/-- Witness for C2: with cached value `0`, setting `1` (delta `1 > 1e-8`)
stores the value, moves the deadline to `3 + 50`, and appends exactly one
copy of `1` to the registered subscriber channel. -/
theorem PubSubDebouncer_SetValue_epsilon_broadcast_witness :
    psdOneSub.listeners.clients.Nodup
    ∧ float64Differs psdOneSub.lastValue 1 = true
    ∧ psdOneSub.SetValue float64Differs 3 1
        = { psdOneSub with
            lastValue := 1
            timeOut := 53
            listeners := { psdOneSub.listeners with
              chans := psdOneSub.listeners.chans.map
                (PubSub.deliverOnce psdOneSub.listeners.clients 1) } } := by
  have h := PubSubDebouncer_SetValue_epsilon_broadcast ℚ inferInstance float64Differs
    psdOneSub 3 1 (by decide)
  have hd : float64Differs psdOneSub.lastValue 1 = true := (h.2.2.1 0 1).2 (by norm_num)
  exact ⟨by decide, hd, h.2.1 hd⟩

/-! ## Claim theorems: the broadcaster -/

/-- A broadcaster with one registered channel (id 0). -/
def psOne : PubSub ℤ := ((NewPubSub ℤ).Register).1

/-- A broadcaster with two registered channels (ids 0, 1). -/
def psTwo : PubSub ℤ := (psOne.Register).1

/-- C6 counterexample: in the `src/unnamed/part_005` variant of the
broadcaster, `Unregister` DOES close the removed channel: after
registering channel 0 (open) and unregistering it, its closed flag is
set. -/
theorem PubSub_UnregisterV0_closes_cex :
    psOne.chanClosed 0 = some false
    ∧ (psOne.UnregisterV0 0).chanClosed 0 = some true := by
  exact ⟨rfl, rfl⟩

/-- C6 (amended): the current broadcaster's `Unregister` (src/email.go)
removes the handle from the subscriber list but leaves the channel heap
completely untouched — in particular the unregistered channel keeps its
closed flag (it stays open if it was open). -/
theorem PubSub_Unregister_never_closes (T : Type) (s : PubSub T) (c : Nat) :
    (s.Unregister c).chans = s.chans
    ∧ (s.Unregister c).chanClosed c = s.chanClosed c
    ∧ (s.clients.Nodup → c ∈ s.clients → c ∉ (s.Unregister c).clients) := by
  refine ⟨PubSub.Unregister_chans s c, ?_, fun hnd hm hmem => ?_⟩
  · unfold PubSub.chanClosed
    rw [PubSub.Unregister_chans]
  · have hperm := PubSub.Unregister_clients_of_mem s c hm
    have : c ∈ s.clients.erase c := hperm.mem_iff.mp hmem
    exact ((List.Nodup.mem_erase_iff hnd).mp this).1 rfl

/-- Witness for C6 at a concrete broadcaster with one registered channel. -/
theorem PubSub_Unregister_never_closes_witness :
    psOne.clients.Nodup ∧ 0 ∈ psOne.clients
    ∧ (psOne.Unregister 0).chans = psOne.chans
    ∧ 0 ∉ (psOne.Unregister 0).clients := by
  have h := PubSub_Unregister_never_closes ℤ psOne 0
  exact ⟨by decide, by decide, h.1, h.2.2 (by decide) (by decide)⟩

/-- C7: unregistering a never-registered handle is a harmless no-op;
unregistering a registered handle removes exactly that handle (up to the
swap-with-last reordering), touches no channel, and a subsequent broadcast
still delivers to every remaining subscriber exactly once. -/
theorem PubSub_Unregister_safety (T : Type) (s : PubSub T) (c : Nat) :
    (c ∉ s.clients → s.Unregister c = s)
    ∧ (s.clients.Nodup → c ∈ s.clients →
        (s.Unregister c).clients.Perm (s.clients.erase c)
        ∧ (s.Unregister c).chans = s.chans
        ∧ ∀ msg, ((s.Unregister c).Broadcast msg).chans
            = (s.Unregister c).chans.map
                (PubSub.deliverOnce (s.Unregister c).clients msg)) := by
  refine ⟨PubSub.Unregister_of_not_mem s c, fun hnd hm =>
    ⟨PubSub.Unregister_clients_of_mem s c hm, PubSub.Unregister_chans s c, fun msg => ?_⟩⟩
  apply PubSub.Broadcast_chans_of_nodup
  exact (PubSub.Unregister_clients_of_mem s c hm).nodup_iff.mpr (hnd.erase c)

/-- Witness for C7: on the two-subscriber broadcaster, unregistering the
unknown handle 99 is a no-op, and after unregistering handle 0 a broadcast
delivers to the remaining subscriber. -/
theorem PubSub_Unregister_safety_witness :
    (psTwo.Unregister 99 = psTwo)
    ∧ psTwo.clients.Nodup ∧ 0 ∈ psTwo.clients
    ∧ ((psTwo.Unregister 0).Broadcast 5).chans
        = (psTwo.Unregister 0).chans.map (PubSub.deliverOnce (psTwo.Unregister 0).clients 5) := by
  have h0 := PubSub_Unregister_safety ℤ psTwo 0
  have h99 := PubSub_Unregister_safety ℤ psTwo 99
  exact ⟨h99.1 (by decide), by decide, by decide, (h0.2 (by decide) (by decide)).2.2 5⟩

/-! ## RandomQueue (src/randomQueue.go) -/

/-- State of `RandomQueue[T]`: the backing slice `files` (the mutex is an
implementation detail of atomicity). -/
structure RandomQueue (T : Type) where
  files : List T
deriving DecidableEq, Repr

/-- `NewRandomQueue`: empty backing slice. -/
def NewRandomQueue (T : Type) : RandomQueue T := ⟨[]⟩

/-- `RandomQueue.Add`: append under the lock. -/
def RandomQueue.Add (r : RandomQueue T) (f : T) : RandomQueue T := ⟨r.files ++ [f]⟩

/-- `RandomQueue.Len`: `len(r.files)`. -/
def RandomQueue.Len (r : RandomQueue T) : Nat := r.files.length

/-- `RandomQueue.GetAndRemove` with the value drawn by
`rand.Intn(len(r.files))` passed in as `offset`.  On an empty queue
`rand.Intn(0)` panics, modelled as `none`; since `rand.Intn(n) < n`, the
in-range guard is exact on nonempty queues.  The removal is the Go
swap-with-last: `files[offset] = files[len-1]; files = files[:len-1]`. -/
def RandomQueue.GetAndRemove (r : RandomQueue T) (offset : Nat) :
    Option (T × RandomQueue T) :=
  if h : offset < r.files.length then
    some (r.files.get ⟨offset, h⟩,
      ⟨(r.files.set offset
          (r.files.getLast (List.ne_nil_of_length_pos
            (Nat.lt_of_le_of_lt (Nat.zero_le _) h)))).dropLast⟩)
  else none

/-- Repeated `GetAndRemove` with a prescribed sequence of random draws:
returns the removed items in order and the final queue, or `none` if some
call panicked. -/
def RandomQueue.drainAll (r : RandomQueue T) (offsets : List Nat) :
    Option (List T × RandomQueue T) :=
  match offsets with
  | [] => some ([], r)
  | o :: os =>
      match r.GetAndRemove o with
      | none => none
      | some (x, r₁) =>
          match r₁.drainAll os with
          | none => none
          | some (got, rem) => some (x :: got, rem)

/-- Removing the element at a valid index and putting it back in front is a
permutation of the original list. -/
theorem List.cons_eraseIdx_perm (xs : List α) (i : Nat) (h : i < xs.length) :
    (xs.get ⟨i, h⟩ :: xs.eraseIdx i).Perm xs := by
  conv_rhs => rw [← List.take_append_drop i xs, List.drop_eq_getElem_cons h]
  rw [List.eraseIdx_eq_take_drop_succ]
  exact List.perm_middle.symm

/-- One in-range `GetAndRemove` returns the element at the drawn slot,
shrinks the queue by one, and preserves the multiset of elements. -/
theorem RandomQueue.getAndRemove_spec (r : RandomQueue T) (offset : Nat)
    (h : offset < r.files.length) :
    ∃ rest : RandomQueue T,
      r.GetAndRemove offset = some (r.files.get ⟨offset, h⟩, rest)
      ∧ rest.Len = r.Len - 1
      ∧ (r.files.get ⟨offset, h⟩ :: rest.files).Perm r.files := by
  refine ⟨_, by rw [RandomQueue.GetAndRemove, dif_pos h], ?_, ?_⟩
  · show ((r.files.set offset _).dropLast).length = r.files.length - 1
    rw [List.length_dropLast, List.length_set]
  · exact ((List.swapRemove_perm r.files offset h _).cons _).trans
      (List.cons_eraseIdx_perm r.files offset h)

/-- A successful `drainAll` removes exactly one item per draw and preserves
the multiset of elements. -/
theorem RandomQueue.drainAll_spec (offsets : List Nat) (r : RandomQueue T)
    (got : List T) (rem : RandomQueue T)
    (h : r.drainAll offsets = some (got, rem)) :
    got.length = offsets.length ∧ (got ++ rem.files).Perm r.files := by
  induction offsets generalizing r got with
  | nil =>
      rw [RandomQueue.drainAll] at h
      obtain ⟨rfl, rfl⟩ : got = [] ∧ rem = r := by
        simpa [eq_comm] using h
      simp
  | cons o os ih =>
      rw [RandomQueue.drainAll] at h
      by_cases ho : o < r.files.length
      · obtain ⟨rest, heq, hlen, hperm⟩ := RandomQueue.getAndRemove_spec r o ho
        rw [heq] at h
        dsimp only at h
        cases hd : rest.drainAll os with
        | none => rw [hd] at h; exact absurd h (by simp)
        | some pr =>
            obtain ⟨got₁, rem₁⟩ := pr
            rw [hd] at h
            obtain ⟨rfl, rfl⟩ : got = r.files.get ⟨o, ho⟩ :: got₁ ∧ rem = rem₁ := by
              simpa [eq_comm] using h
            obtain ⟨ih1, ih2⟩ := ih rest got₁ hd
            refine ⟨by simp [ih1], ?_⟩
            exact ((ih2.cons _).trans hperm)
      · rw [RandomQueue.GetAndRemove, dif_neg ho] at h
        exact absurd h (by simp)

/-- C4: on a nonempty queue holding `n` items, `GetAndRemove` (at any value
of the uniformly drawn index in `[0, n)`) returns the element at that slot
and shrinks the queue to `n-1` elements preserving the multiset; draining a
queue with as many draws as items empties it and returns exactly the input
multiset; `GetAndRemove` on the empty queue is fatal (`none`, the
`rand.Intn(0)` panic). -/
theorem RandomQueue_GetAndRemove_spec (T : Type) (r : RandomQueue T) (offset : Nat)
    (offsets : List Nat) (got : List T) (rem : RandomQueue T)
    (hoff : offset < r.files.length)
    (hlen : offsets.length = r.files.length)
    (hrun : r.drainAll offsets = some (got, rem)) :
    ((NewRandomQueue T).GetAndRemove offset = none)
    ∧ (∃ rest : RandomQueue T,
        r.GetAndRemove offset = some (r.files.get ⟨offset, hoff⟩, rest)
        ∧ rest.Len = r.Len - 1
        ∧ (r.files.get ⟨offset, hoff⟩ :: rest.files).Perm r.files)
    ∧ rem.Len = 0 ∧ got.Perm r.files := by
  obtain ⟨hg, hperm⟩ := RandomQueue.drainAll_spec offsets r got rem hrun
  have hcard := hperm.length_eq
  rw [List.length_append] at hcard
  have hrem : rem.files.length = 0 := by omega
  have hnil : rem.files = [] := List.length_eq_zero.mp hrem
  rw [hnil, List.append_nil] at hperm
  exact ⟨rfl, RandomQueue.getAndRemove_spec r offset hoff, hrem, hperm⟩

/-- The concrete queue {10, 20, 30} built by three `Add` calls. -/
def rq3 : RandomQueue ℤ := (((NewRandomQueue ℤ).Add 10).Add 20).Add 30

/-- Witness for C4: draining `rq3` with draws 1, 0, 0 removes 20, 10, 30,
leaves the queue empty, and the removed items are a permutation of the
input. -/
theorem RandomQueue_GetAndRemove_spec_witness :
    (0 < rq3.files.length)
    ∧ ([1, 0, 0].length = rq3.files.length)
    ∧ rq3.drainAll [1, 0, 0] = some ([20, 10, 30], NewRandomQueue ℤ)
    ∧ (NewRandomQueue ℤ).Len = 0 ∧ [(20 : ℤ), 10, 30].Perm rq3.files := by
  have h := RandomQueue_GetAndRemove_spec ℤ rq3 0 [1, 0, 0] [20, 10, 30]
    (NewRandomQueue ℤ) (by decide) (by decide) (by decide)
  exact ⟨by decide, by decide, by decide, h.2.2.1, h.2.2.2⟩

/-! ## WorkerPool (src/workerPool.go)

The pool state is modelled at the granularity the Go channels and the
atomic counter enforce: the bounded `work` and `result` channels are FIFO
lists, `inWorker` is the multiset of items a worker has taken off the work
channel but whose results it has not yet pushed, and `count` is the atomic
in-flight counter.  `posted` and `retrieved` are ghost histories of the
completed `Post` and `Result` calls.  Bounded capacity only delays steps
(blocking), so it does not constrain which interleavings are expressible. -/

structure WorkerPool (W R : Type) where
  work : List W
  result : List R
  inWorker : Multiset W
  count : Int
  posted : List W
  retrieved : List R
  closed : Bool

/-- `NewWorkerPool`: empty channels, counter zero, `numWorkers` idle
workers (worker count does not constrain the claims modelled here). -/
def NewWorkerPool (W R : Type) : WorkerPool W R := ⟨[], [], 0, 0, [], [], false⟩

/-- `WorkerPool.Len`: `wp.count.Load()`. -/
def WorkerPool.Len (s : WorkerPool W R) : Int := s.count

/-- `WorkerPool.IsActive`: `wp.count.Load() > 0`. -/
def WorkerPool.IsActive (s : WorkerPool W R) : Bool := decide (0 < s.count)

/-- One atomic step of the pool or of a client:
* `post`: a completed `Post(w)` — `count.Add(1)` then `work <- w`
  (requires the work channel not closed);
* `take`: a worker receives the next work item (`for w := range pool.work`);
* `run`: a worker finishes `pool.f(w)` and pushes `pool.result <- f(w)`;
* `getResult`: a completed `Result()` — `v := <-pool.result` then
  `count.Add(-1)`;
* `close`: `Close()` closes the work channel. -/
inductive WorkerPool.Step {W R : Type} [DecidableEq W] (f : W → R) :
    WorkerPool W R → WorkerPool W R → Prop
  | post (q : List W) (r : List R) (iw : Multiset W) (c : Int) (p : List W) (g : List R)
      (w : W) :
      WorkerPool.Step f ⟨q, r, iw, c, p, g, false⟩
        ⟨q ++ [w], r, iw, c + 1, p ++ [w], g, false⟩
  | take (q : List W) (r : List R) (iw : Multiset W) (c : Int) (p : List W) (g : List R)
      (cl : Bool) (w : W) :
      WorkerPool.Step f ⟨w :: q, r, iw, c, p, g, cl⟩ ⟨q, r, w ::ₘ iw, c, p, g, cl⟩
  | run (q : List W) (r : List R) (iw : Multiset W) (c : Int) (p : List W) (g : List R)
      (cl : Bool) (w : W) (hw : w ∈ iw) :
      WorkerPool.Step f ⟨q, r, iw, c, p, g, cl⟩ ⟨q, r ++ [f w], iw.erase w, c, p, g, cl⟩
  | getResult (q : List W) (r : List R) (iw : Multiset W) (c : Int) (p : List W)
      (g : List R) (cl : Bool) (x : R) :
      WorkerPool.Step f ⟨q, x :: r, iw, c, p, g, cl⟩ ⟨q, r, iw, c - 1, p, g ++ [x], cl⟩
  | close (q : List W) (r : List R) (iw : Multiset W) (c : Int) (p : List W) (g : List R) :
      WorkerPool.Step f ⟨q, r, iw, c, p, g, false⟩ ⟨q, r, iw, c, p, g, true⟩

/-- The states reachable from a freshly constructed pool. -/
def WorkerPool.Reach {W R : Type} [DecidableEq W] (f : W → R) (s : WorkerPool W R) : Prop :=
  Relation.ReflTransGen (WorkerPool.Step f) (NewWorkerPool W R) s
/-- As multisets, appending one element is the same as consing it. -/
theorem Multiset.coe_append_singleton (l : List α) (x : α) :
    ((l ++ [x] : List α) : Multiset α) = x ::ₘ (l : Multiset α) := by
  rw [Multiset.cons_coe]
  exact Multiset.coe_eq_coe.mpr (List.perm_append_singleton x l)

/-- The conservation invariant: the counter equals completed posts minus
completed retrievals, and every posted item is accounted for exactly once —
still queued, inside a worker, queued as a result, or retrieved. -/
theorem WorkerPool.reach_inv {W R : Type} [DecidableEq W] (f : W → R)
    (s : WorkerPool W R) (h : WorkerPool.Reach f s) :
    s.count = (s.posted.length : Int) - (s.retrieved.length : Int)
    ∧ (s.retrieved : Multiset R) + (s.result : Multiset R)
        + Multiset.map f s.inWorker + Multiset.map f (s.work : Multiset W)
        = Multiset.map f (s.posted : Multiset W) := by
  induction h with
  | refl => simp [NewWorkerPool]
  | tail _ hstep ih =>
      obtain ⟨ih1, ih2⟩ := ih
      cases hstep with
      | post q r iw c p g w =>
          dsimp only at ih1 ih2 ⊢
          constructor
          · rw [List.length_append, List.length_singleton]
            push_cast
            omega
          · rw [Multiset.coe_append_singleton, Multiset.coe_append_singleton]
            simp only [Multiset.map_cons]
            simp only [← Multiset.singleton_add]
            rw [← ih2]
            abel
      | take q r iw c p g cl w =>
          dsimp only at ih1 ih2 ⊢
          refine ⟨ih1, ?_⟩
          rw [← Multiset.cons_coe] at ih2
          simp only [Multiset.map_cons] at ih2 ⊢
          simp only [← Multiset.singleton_add] at ih2 ⊢
          rw [← ih2]
          abel
      | run q r iw c p g cl w hw =>
          dsimp only at ih1 ih2 ⊢
          refine ⟨ih1, ?_⟩
          rw [← Multiset.cons_erase hw] at ih2
          rw [Multiset.coe_append_singleton]
          simp only [Multiset.map_cons] at ih2 ⊢
          simp only [← Multiset.singleton_add] at ih2 ⊢
          rw [← ih2]
          abel
      | getResult q r iw c p g cl x =>
          dsimp only at ih1 ih2 ⊢
          constructor
          · rw [List.length_append, List.length_singleton]
            push_cast
            omega
          · rw [← Multiset.cons_coe] at ih2
            rw [Multiset.coe_append_singleton]
            simp only [← Multiset.singleton_add] at ih2 ⊢
            rw [← ih2]
            abel
      | close q r iw c p g =>
          exact ⟨ih1, ih2⟩

/-- C8: for every reachable pool state, `Len()` (the in-flight counter)
equals the number of completed `Post` calls minus the number of completed
`Result` calls, retrievals never outnumber posts, and the counter is never
negative. -/
theorem WorkerPool_counter_invariant (W R : Type) [DecidableEq W] (f : W → R)
    (s : WorkerPool W R) (h : WorkerPool.Reach f s) :
    s.Len = (s.posted.length : Int) - (s.retrieved.length : Int)
    ∧ s.retrieved.length ≤ s.posted.length
    ∧ 0 ≤ s.Len := by
  obtain ⟨h1, h2⟩ := WorkerPool.reach_inv f s h
  have hcard := congrArg Multiset.card h2
  simp only [Multiset.card_add, Multiset.card_map, Multiset.coe_card] at hcard
  refine ⟨h1, by omega, ?_⟩
  show (0 : Int) ≤ s.count
  rw [h1]
  have : s.retrieved.length ≤ s.posted.length := by omega
  omega

/-- C5: with the identity worker function, once the ten posted items
1‥10 have yielded ten retrieved results, the retrieved multiset is exactly
the posted multiset and `IsActive()` is `false`. -/
theorem WorkerPool_identity_conservation (s : WorkerPool ℕ ℕ)
    (h : WorkerPool.Reach (fun x => x) s)
    (hp : s.posted = [1, 2, 3, 4, 5, 6, 7, 8, 9, 10])
    (hg : s.retrieved.length = 10) :
    (s.retrieved : Multiset ℕ) = (s.posted : Multiset ℕ) ∧ s.IsActive = false := by
  obtain ⟨h1, h2⟩ := WorkerPool.reach_inv (fun x => x) s h
  simp only [Multiset.map_id'] at h2
  have hcard := congrArg Multiset.card h2
  simp only [Multiset.card_add, Multiset.coe_card] at hcard
  have hplen : s.posted.length = 10 := by rw [hp]; rfl
  have hr : s.result.length = 0 := by omega
  have hq : s.work.length = 0 := by omega
  have hiw : Multiset.card s.inWorker = 0 := by omega
  have e1 : (s.result : Multiset ℕ) = 0 := by rw [List.length_eq_zero.mp hr]; rfl
  have e2 : (s.work : Multiset ℕ) = 0 := by rw [List.length_eq_zero.mp hq]; rfl
  have e3 : s.inWorker = 0 := Multiset.card_eq_zero.mp hiw
  rw [e1, e2, e3] at h2
  simp only [add_zero] at h2
  refine ⟨h2, ?_⟩
  show decide (0 < s.count) = false
  rw [h1, hplen, hg]
  rfl

/-- A full post/take/run/getResult cycle of a single item on an otherwise
quiet pool. -/
theorem WorkerPool.processOne {W R : Type} [DecidableEq W] (f : W → R) (c : Int)
    (p : List W) (g : List R) (w : W) :
    Relation.ReflTransGen (WorkerPool.Step f)
      ⟨[], [], 0, c, p, g, false⟩ ⟨[], [], 0, c, p ++ [w], g ++ [f w], false⟩ := by
  have t1 := WorkerPool.Step.post (f := f) [] [] 0 c p g w
  have t2 := WorkerPool.Step.take (f := f) [] [] 0 (c + 1) (p ++ [w]) g false w
  have t3 := WorkerPool.Step.run (f := f) [] [] (w ::ₘ 0) (c + 1) (p ++ [w]) g false w
    (Multiset.mem_cons_self w 0)
  have t4 := WorkerPool.Step.getResult (f := f) []  []
    ((w ::ₘ (0 : Multiset W)).erase w) (c + 1) (p ++ [w]) g false (f w)
  have htr := (((Relation.ReflTransGen.single t1).tail t2).tail t3).tail t4
  have e : (w ::ₘ (0 : Multiset W)).erase w = 0 := Multiset.erase_cons_head w 0
  have e2 : c + 1 - 1 = c := by omega
  rw [e, e2] at htr
  exact htr

/-- Posting each item of `ws` and retrieving its result, one after the
other, reaches the fully drained state. -/
theorem WorkerPool.processAll {W R : Type} [DecidableEq W] (f : W → R) (ws : List W) :
    WorkerPool.Reach f ⟨[], [], 0, 0, ws, ws.map f, false⟩ := by
  induction ws using List.reverseRecOn with
  | nil => exact Relation.ReflTransGen.refl
  | append_singleton ws w ih =>
      have h2 := WorkerPool.processOne f 0 ws (ws.map f) w
      have h3 := ih.trans h2
      simpa [List.map_append] using h3

/-- The pool state after posting 1‥10 through the identity worker and
retrieving all ten results. -/
def wpDone : WorkerPool ℕ ℕ :=
  ⟨[], [], 0, 0, [1, 2, 3, 4, 5, 6, 7, 8, 9, 10], [1, 2, 3, 4, 5, 6, 7, 8, 9, 10], false⟩

/-- The pool state after a single completed `Post 7`. -/
def wpOnePost : WorkerPool ℕ ℕ := ⟨[7], [], 0, 1, [7], [], false⟩

/-- Witness for C8 after one completed `Post`: the counter is `1 - 0` and
nonnegative. -/
theorem WorkerPool_counter_invariant_witness :
    WorkerPool.Reach (fun x : ℕ => x) wpOnePost
    ∧ wpOnePost.Len = (wpOnePost.posted.length : Int) - (wpOnePost.retrieved.length : Int)
    ∧ wpOnePost.Len = 1
    ∧ 0 ≤ wpOnePost.Len := by
  have hr : WorkerPool.Reach (fun x : ℕ => x) wpOnePost := by
    have t := WorkerPool.Step.post (f := fun x : ℕ => x) [] [] 0 0 [] [] 7
    have htr := Relation.ReflTransGen.single t
    simpa using htr
  have h := WorkerPool_counter_invariant ℕ ℕ (fun x => x) wpOnePost hr
  exact ⟨hr, h.1, rfl, h.2.2⟩

/-- Witness for C5: the drained state reached by posting 1‥10 through the
identity pool and retrieving all ten results satisfies the claim's
conclusion. -/
theorem WorkerPool_identity_conservation_witness :
    WorkerPool.Reach (fun x : ℕ => x) wpDone
    ∧ wpDone.posted = [1, 2, 3, 4, 5, 6, 7, 8, 9, 10]
    ∧ wpDone.retrieved.length = 10
    ∧ (wpDone.retrieved : Multiset ℕ) = (wpDone.posted : Multiset ℕ)
    ∧ wpDone.IsActive = false := by
  have hr : WorkerPool.Reach (fun x : ℕ => x) wpDone := by
    have h := WorkerPool.processAll (fun x : ℕ => x) [1, 2, 3, 4, 5, 6, 7, 8, 9, 10]
    simpa using h
  have h2 := WorkerPool_identity_conservation wpDone hr rfl rfl
  exact ⟨hr, rfl, rfl, h2.1, h2.2⟩
